import Mathlib

/-!
# Verification of the mbus-tools M-Bus codec and proxy multiplexer

A shallow embedding, in Lean 4, of the M-Bus link-layer frame model,
serializer (`FrameIterator`), nom-based streaming parser (`parse_frame`),
the two framed-stream decoders (`mbus-codec`'s hinted `MbusCodec::decode`
and `mbus-proxy`'s unhinted one), and the proxy multiplexer step
(`multiplex_single_op` / `forward_frame`).

Bytes are modelled as `Nat` (real inputs are `u8`, hence `< 256`; theorems
that depend on the 8-bit bound take it as an explicit hypothesis).
Wrapping `u8` arithmetic is modelled with explicit `% 256`.

The nom streaming combinators used by `parser.rs` are embedded with nom's
semantics: `bytes::streaming::take(n)` on a short input reports
`Incomplete(Needed::new(n - input.len()))`, i.e. the *additional* bytes the
blocked combinator still needs; one-byte `tag` likewise; `cut` turns
recoverable errors into failures; `map_res` with the crate's
`FromExternalError` instance keeps the custom error; `alt` tries the next
branch only on a recoverable error and otherwise returns the result as is.
-/

namespace Mbus

/-- `SINGLE_CHAR` from `mbus/src/lib.rs`. -/
def SINGLE_CHAR : Nat := 0xE5

/-- `SHORT_START` from `mbus/src/lib.rs`. -/
def SHORT_START : Nat := 0x10

/-- `LONG_START` from `mbus/src/lib.rs`. -/
def LONG_START : Nat := 0x68

/-- `FRAME_END` from `mbus/src/lib.rs`. -/
def FRAME_END : Nat := 0x16

/-- The `Frame` enum from `mbus/src/lib.rs`. -/
inductive Frame : Type where
  | single : Frame
  | short (control address : Nat) : Frame
  | control (control address control_information : Nat) : Frame
  | long (control address control_information : Nat) (data : List Nat) : Frame
deriving DecidableEq, Repr

/-- `calculate_checksum` from `mbus/src/utils.rs`: wrapping byte sum. -/
def calculate_checksum (bytes : List Nat) : Nat :=
  bytes.foldl (fun sum b => (sum + b) % 256) 0

/-- The byte the `FrameIterator` (`mbus/src/iterator.rs`) yields at a given
index, or `none` once the iterator is exhausted.  Direct embedding of the
`match self.frame` in `FrameIterator::next` (which returns the byte for the
current `index` and increments it). -/
def Frame.byteAt : Frame → Nat → Option Nat
  | .single, 0 => some SINGLE_CHAR
  | .single, _ + 1 => none
  | .short c a, i =>
    match i with
    | 0 => some SHORT_START
    | 1 => some c
    | 2 => some a
    | 3 => some (calculate_checksum [c, a])
    | 4 => some FRAME_END
    | _ => none
  | .control c a ci, i =>
    match i with
    | 0 => some LONG_START
    | 1 => some 3
    | 2 => some 3
    | 3 => some LONG_START
    | 4 => some c
    | 5 => some a
    | 6 => some ci
    | 7 => some (calculate_checksum [c, a, ci])
    | 8 => some FRAME_END
    | _ => none
  | .long c a ci d, i =>
    match i with
    | 0 => some LONG_START
    | 1 => some ((d.length + 3) % 256)
    | 2 => some ((d.length + 3) % 256)
    | 3 => some LONG_START
    | 4 => some c
    | 5 => some a
    | 6 => some ci
    | i =>
      if i ≤ 6 + d.length then d.get? (i - 7)
      else if i = 6 + d.length + 1 then
        some (calculate_checksum ([c, a, ci] ++ d))
      else if i = 6 + d.length + 2 then some FRAME_END
      else none

/-- `Frame::to_bytes` (`mbus/src/lib.rs`): collecting the `FrameIterator`
into a byte sequence.  The agreement with `Frame.byteAt` is proved in
`to_bytes_get?` below. -/
def Frame.to_bytes : Frame → List Nat
  | .single => [SINGLE_CHAR]
  | .short c a =>
    [SHORT_START, c, a, calculate_checksum [c, a], FRAME_END]
  | .control c a ci =>
    [LONG_START, 3, 3, LONG_START, c, a, ci,
      calculate_checksum [c, a, ci], FRAME_END]
  | .long c a ci d =>
    [LONG_START, (d.length + 3) % 256, (d.length + 3) % 256, LONG_START,
      c, a, ci] ++ d ++
      [calculate_checksum ([c, a, ci] ++ d), FRAME_END]

/-- nom's `Needed` (re-exported by the crate as `ParseSizeNeeded`). -/
inductive SizeNeeded : Type where
  | Unknown : SizeNeeded
  | Size (n : Nat) : SizeNeeded
deriving DecidableEq, Repr

/-- nom's `Needed::new`: `Size` for a positive count, `Unknown` for zero. -/
def neededNew (n : Nat) : SizeNeeded :=
  if n = 0 then .Unknown else .Size n

/-- `FrameParseErrorKind` from `mbus/src/parser.rs`.  Only `ErrorKind::Tag`
of nom's kinds can actually reach a caller, but the embedding keeps the
wrapper. -/
inductive NomKind : Type where
  | Tag : NomKind
  | Alt : NomKind
  | MapRes : NomKind
deriving DecidableEq, Repr

inductive FrameParseErrorKind : Type where
  | MalformedChecksum : FrameParseErrorKind
  | InconsistentLengthValues : FrameParseErrorKind
  | Nom (kind : NomKind) : FrameParseErrorKind
deriving DecidableEq, Repr

/-- `FrameParseError` from `mbus/src/parser.rs`. -/
structure FrameParseError : Type where
  input : List Nat
  kind : FrameParseErrorKind
deriving DecidableEq, Repr

/-- The outcome of a nom parser: `IResult<&[u8], O, FrameParseError>`, with
`nom::Err`'s three error shapes flattened in. -/
inductive PResult (α : Type) : Type where
  | ok (rest : List Nat) (val : α) : PResult α
  | incomplete (needed : SizeNeeded) : PResult α
  | error (e : FrameParseError) : PResult α
  | failure (e : FrameParseError) : PResult α
deriving DecidableEq, Repr

/-- Sequencing of nom parsers (`tuple`): later parsers run on the remaining
input; `Incomplete`, `Error` and `Failure` all abort the sequence. -/
def pbind {α β : Type} (r : PResult α) (f : List Nat → α → PResult β) : PResult β :=
  match r with
  | .ok rest v => f rest v
  | .incomplete n => .incomplete n
  | .error e => .error e
  | .failure e => .failure e

/-- nom's streaming one-byte `tag`, as used by `tag_short_start`,
`tag_long_start` and `tag_frame_end` in `mbus/src/parser.rs`. -/
def tagByte (b : Nat) (i : List Nat) : PResult (List Nat) :=
  match i with
  | [] => .incomplete (neededNew 1)
  | x :: rest => if x = b then .ok rest [b] else .error ⟨i, .Nom .Tag⟩

/-- nom's `bytes::streaming::take(n)`. -/
def takeN (n : Nat) (i : List Nat) : PResult (List Nat) :=
  if i.length < n then .incomplete (neededNew (n - i.length))
  else .ok (i.drop n) (i.take n)

/-- `checksummed_buf(n)` from `mbus/src/parser.rs`:
`cut(map_res(take(n), |i| ...))` — takes `n` bytes, verifies that the last
one is the checksum of the first `n-1`, and yields those `n-1` bytes.  A
checksum mismatch is a `Failure` (because of `cut`) carrying the taken
slice. -/
def checksummed_buf (n : Nat) (i : List Nat) : PResult (List Nat) :=
  pbind (takeN n i) fun rest tk =>
    let l := tk.length
    if calculate_checksum (tk.take (l - 1)) = tk.getD (l - 1) 0 then
      .ok rest (tk.take (l - 1))
    else
      .failure ⟨tk, .MalformedChecksum⟩

/-- `length_value` from `mbus/src/parser.rs`: `cut(map_res(take(2), ...))` —
the two length bytes must agree; their common value is the length. -/
def length_value (i : List Nat) : PResult Nat :=
  pbind (takeN 2 i) fun rest tk =>
    if tk.getD 0 0 = tk.getD 1 0 then .ok rest (tk.getD 0 0)
    else .failure ⟨tk, .InconsistentLengthValues⟩

/-- `single` from `mbus/src/parser.rs`. -/
def singleP (i : List Nat) : PResult Frame :=
  pbind (tagByte SINGLE_CHAR i) fun rest _ => .ok rest Frame.single

/-- `short_frame` from `mbus/src/parser.rs`. -/
def short_frame (i : List Nat) : PResult Frame :=
  pbind (tagByte SHORT_START i) fun i1 _ =>
  pbind (checksummed_buf 3 i1) fun i2 buf =>
  pbind (tagByte FRAME_END i2) fun i3 _ =>
    .ok i3 (Frame.short (buf.getD 0 0) (buf.getD 1 0))

/-- `long_frame` from `mbus/src/parser.rs`.  Note that the source checks
`length < 3` only *after* the whole checksummed body and the end byte have
been parsed. -/
def long_frame (i : List Nat) : PResult Frame :=
  pbind (tagByte LONG_START i) fun i1 _ =>
  pbind (length_value i1) fun i2 length =>
  pbind (tagByte LONG_START i2) fun i3 _ =>
  pbind (checksummed_buf (length + 1) i3) fun i4 buf =>
  pbind (tagByte FRAME_END i4) fun i5 _ =>
    if length < 3 then .failure ⟨i5, .InconsistentLengthValues⟩
    else if length = 3 then
      .ok i5 (Frame.control (buf.getD 0 0) (buf.getD 1 0) (buf.getD 2 0))
    else
      .ok i5 (Frame.long (buf.getD 0 0) (buf.getD 1 0) (buf.getD 2 0) (buf.drop 3))

/-- `parse_frame` from `mbus/src/parser.rs`:
`alt((single, short_frame, long_frame))`.  nom's `alt` moves to the next
branch only on `Err::Error`; `Ok`, `Incomplete` and `Failure` are returned
as is, and if every branch errors the last branch's error is returned
(the crate's `ParseError::append` keeps the newer error). -/
def parse_frame (i : List Nat) : PResult Frame :=
  match singleP i with
  | .error _ =>
    match short_frame i with
    | .error _ =>
      match long_frame i with
      | r => r
    | r => r
  | r => r

-- The four well-formed test vectors of `parser.rs`'s `test_parse_frame`.
example : parse_frame [0xE5] = .ok [] .single := by decide
example : parse_frame [0x10, 0x7B, 0x49, 0xC4, 0x16] = .ok [] (.short 0x7B 0x49) := by decide
example :
    parse_frame [0x68, 0x03, 0x03, 0x68, 0x53, 0xFE, 0xBD, 0x0E, 0x16] =
      .ok [] (.control 0x53 0xFE 0xBD) := by decide
example :
    parse_frame [0x68, 0x06, 0x06, 0x68, 0x53, 0xFE, 0x51, 0x01, 0x7A, 0x08, 0x25, 0x16] =
      .ok [] (.long 0x53 0xFE 0x51 [0x01, 0x7A, 0x08]) := by decide
-- The two faulty test vectors of `test_parse_frame`.
example :
    parse_frame [0x10, 0x7B, 0x49, 0xC5, 0x16] =
      .failure ⟨[0x7B, 0x49, 0xC5], .MalformedChecksum⟩ := by decide
example :
    parse_frame [0x68, 0x03, 0x02, 0x68, 0x53, 0xFE, 0xBD, 0x0E, 0x16] =
      .failure ⟨[0x03, 0x02], .InconsistentLengthValues⟩ := by decide
-- The serializer on the same vectors (`iterator.rs`'s `test_iterator`).
example : Frame.to_bytes .single = [0xE5] := by decide
example : Frame.to_bytes (.short 0x7B 0x49) = [0x10, 0x7B, 0x49, 0xC4, 0x16] := by decide
example :
    Frame.to_bytes (.control 0x53 0xFE 0xBD) =
      [0x68, 0x03, 0x03, 0x68, 0x53, 0xFE, 0xBD, 0x0E, 0x16] := by decide
example :
    Frame.to_bytes (.long 0x53 0xFE 0x51 [0x01, 0x7A, 0x08]) =
      [0x68, 0x06, 0x06, 0x68, 0x53, 0xFE, 0x51, 0x01, 0x7A, 0x08, 0x25, 0x16] := by decide


/-! ## Equations for `parse_frame`, one per reachable outcome

Every input falls into exactly one of the shapes below (`parse_shape`
proves the classification); each equation computes `parse_frame` there.
-/

theorem parse_nil : parse_frame [] = .incomplete (.Size 1) := by decide

theorem parse_singleOk (t : List Nat) : parse_frame (0xE5 :: t) = .ok t .single := by
  simp [parse_frame, singleP, tagByte, pbind, SINGLE_CHAR]

theorem parse_shortInc (t : List Nat) (h : t.length < 3) :
    parse_frame (0x10 :: t) = .incomplete (.Size (3 - t.length)) := by
  have h' : ¬(3 - t.length = 0) := by omega
  simp [parse_frame, singleP, short_frame, tagByte, pbind, checksummed_buf, takeN,
    neededNew, SINGLE_CHAR, SHORT_START, h, h']

theorem parse_shortBadCs (b1 b2 b3 : Nat) (t : List Nat)
    (h : calculate_checksum [b1, b2] ≠ b3) :
    parse_frame (0x10 :: b1 :: b2 :: b3 :: t) =
      .failure ⟨[b1, b2, b3], .MalformedChecksum⟩ := by
  have hlen : ¬ (t.length + 1 + 1 + 1 < 3) := by omega
  simp [parse_frame, singleP, short_frame, tagByte, pbind, checksummed_buf, takeN,
    neededNew, SINGLE_CHAR, SHORT_START, h, hlen]

theorem parse_shortNoEnd (b1 b2 : Nat) :
    parse_frame [0x10, b1, b2, calculate_checksum [b1, b2]] = .incomplete (.Size 1) := by
  simp [parse_frame, singleP, short_frame, tagByte, pbind, checksummed_buf, takeN,
    neededNew, SINGLE_CHAR, SHORT_START, FRAME_END]

theorem parse_shortOk (b1 b2 : Nat) (u : List Nat) :
    parse_frame (0x10 :: b1 :: b2 :: calculate_checksum [b1, b2] :: 0x16 :: u) =
      .ok u (.short b1 b2) := by
  have hlen : ¬ (u.length + 1 + 1 + 1 + 1 < 3) := by omega
  simp [parse_frame, singleP, short_frame, tagByte, pbind, checksummed_buf, takeN,
    neededNew, SINGLE_CHAR, SHORT_START, FRAME_END, hlen]

theorem parse_shortBadEnd (b1 b2 y : Nat) (u : List Nat) (h : y ≠ 0x16) :
    parse_frame (0x10 :: b1 :: b2 :: calculate_checksum [b1, b2] :: y :: u) =
      .error ⟨0x10 :: b1 :: b2 :: calculate_checksum [b1, b2] :: y :: u, .Nom .Tag⟩ := by
  have hlen : ¬ (u.length + 1 + 1 + 1 + 1 < 3) := by omega
  simp [parse_frame, singleP, short_frame, long_frame, tagByte, pbind, checksummed_buf,
    takeN, neededNew, SINGLE_CHAR, SHORT_START, LONG_START, FRAME_END, h, hlen]

/-! ### List decomposition helpers -/

theorem takeN_exact (pre post : List Nat) : takeN pre.length (pre ++ post) = .ok post pre := by
  have h : ¬ ((pre ++ post).length < pre.length) := by
    rw [List.length_append]; omega
  rw [takeN, if_neg h, List.drop_left, List.take_left]

theorem takeN_body_cs (body : List Nat) (cs : Nat) (t : List Nat) :
    takeN (body.length + 1) (body ++ cs :: t) = .ok t (body ++ [cs]) := by
  have h := takeN_exact (body ++ [cs]) t
  simpa using h

theorem getD_concat (l : List Nat) (a : Nat) : (l ++ [a]).getD l.length 0 = a := by
  simp [List.getD]

/-- `checksummed_buf` on input that starts with `n` bytes `body ++ [cs]`. -/
theorem checksummed_buf_body (body : List Nat) (cs : Nat) (t : List Nat) :
    checksummed_buf (body.length + 1) (body ++ cs :: t) =
      if calculate_checksum body = cs then .ok t body
      else .failure ⟨body ++ [cs], .MalformedChecksum⟩ := by
  rw [checksummed_buf, takeN_body_cs]
  simp only [pbind, List.length_append, List.length_cons, List.length_nil, Nat.zero_add,
    Nat.add_sub_cancel, List.take_left, getD_concat]

/-- Once the input is a committed Long header `68 L L 68`, `parse_frame`
is the tail of `long_frame`. -/
theorem parse_long_general (L : Nat) (t3 : List Nat) :
    parse_frame (0x68 :: L :: L :: 0x68 :: t3) =
      pbind (checksummed_buf (L + 1) t3) (fun i4 buf =>
        pbind (tagByte 0x16 i4) (fun i5 _ =>
          if L < 3 then .failure ⟨i5, .InconsistentLengthValues⟩
          else if L = 3 then
            .ok i5 (Frame.control (buf.getD 0 0) (buf.getD 1 0) (buf.getD 2 0))
          else
            .ok i5 (Frame.long (buf.getD 0 0) (buf.getD 1 0) (buf.getD 2 0) (buf.drop 3)))) := by
  have hlen : ¬ (t3.length + 1 + 1 + 1 < 2) := by omega
  simp [parse_frame, singleP, short_frame, long_frame, tagByte, pbind, length_value, takeN,
    neededNew, SINGLE_CHAR, SHORT_START, LONG_START, FRAME_END, hlen]

theorem parse_longInc2 (t : List Nat) (h : t.length < 2) :
    parse_frame (0x68 :: t) = .incomplete (.Size (2 - t.length)) := by
  have h' : ¬ (2 - t.length = 0) := by omega
  simp [parse_frame, singleP, short_frame, long_frame, tagByte, pbind, length_value, takeN,
    neededNew, SINGLE_CHAR, SHORT_START, LONG_START, h, h']

theorem parse_longLenMismatch (l1 l2 : Nat) (t : List Nat) (h : l1 ≠ l2) :
    parse_frame (0x68 :: l1 :: l2 :: t) = .failure ⟨[l1, l2], .InconsistentLengthValues⟩ := by
  have hlen : ¬ (t.length + 1 + 1 < 2) := by omega
  simp [parse_frame, singleP, short_frame, long_frame, tagByte, pbind, length_value, takeN,
    neededNew, SINGLE_CHAR, SHORT_START, LONG_START, h, hlen]

theorem parse_longIncTag (L : Nat) : parse_frame [0x68, L, L] = .incomplete (.Size 1) := by
  simp [parse_frame, singleP, short_frame, long_frame, tagByte, pbind, length_value, takeN,
    neededNew, SINGLE_CHAR, SHORT_START, LONG_START]

theorem parse_longBadTag (L z : Nat) (t3 : List Nat) (h : z ≠ 0x68) :
    parse_frame (0x68 :: L :: L :: z :: t3) = .error ⟨z :: t3, .Nom .Tag⟩ := by
  have hlen : ¬ (t3.length + 1 + 1 + 1 < 2) := by omega
  simp [parse_frame, singleP, short_frame, long_frame, tagByte, pbind, length_value, takeN,
    neededNew, SINGLE_CHAR, SHORT_START, LONG_START, h, hlen]

theorem parse_longIncBody (L : Nat) (t3 : List Nat) (h : t3.length < L + 1) :
    parse_frame (0x68 :: L :: L :: 0x68 :: t3) = .incomplete (.Size (L + 1 - t3.length)) := by
  have h' : ¬ (L + 1 - t3.length = 0) := by omega
  rw [parse_long_general]
  simp [checksummed_buf, takeN, pbind, neededNew, h, h']

theorem parse_longBadCs (body : List Nat) (cs : Nat) (t : List Nat)
    (h : calculate_checksum body ≠ cs) :
    parse_frame (0x68 :: body.length :: body.length :: 0x68 :: (body ++ cs :: t)) =
      .failure ⟨body ++ [cs], .MalformedChecksum⟩ := by
  rw [parse_long_general, checksummed_buf_body, if_neg h]
  simp [pbind]

theorem parse_longNoEnd (body : List Nat) :
    parse_frame (0x68 :: body.length :: body.length :: 0x68 ::
        (body ++ [calculate_checksum body])) = .incomplete (.Size 1) := by
  have h := checksummed_buf_body body (calculate_checksum body) []
  rw [parse_long_general, h, if_pos rfl]
  simp [pbind, tagByte, neededNew]

theorem parse_longBadEnd (body : List Nat) (w : Nat) (u : List Nat) (h : w ≠ 0x16) :
    parse_frame (0x68 :: body.length :: body.length :: 0x68 ::
        (body ++ calculate_checksum body :: w :: u)) = .error ⟨w :: u, .Nom .Tag⟩ := by
  rw [parse_long_general, checksummed_buf_body, if_pos rfl]
  simp [pbind, tagByte, h]

theorem parse_longLenLt3 (body : List Nat) (u : List Nat) (h : body.length < 3) :
    parse_frame (0x68 :: body.length :: body.length :: 0x68 ::
        (body ++ calculate_checksum body :: 0x16 :: u)) =
      .failure ⟨u, .InconsistentLengthValues⟩ := by
  rw [parse_long_general, checksummed_buf_body, if_pos rfl]
  simp [pbind, tagByte, h]

/-- Successful Long-path parse, in terms of the checksummed body. -/
theorem parse_longBodyOk (body : List Nat) (u : List Nat) (h3 : 3 ≤ body.length) :
    parse_frame (0x68 :: body.length :: body.length :: 0x68 ::
        (body ++ calculate_checksum body :: 0x16 :: u)) =
      .ok u (if body.length = 3 then
               Frame.control (body.getD 0 0) (body.getD 1 0) (body.getD 2 0)
             else
               Frame.long (body.getD 0 0) (body.getD 1 0) (body.getD 2 0) (body.drop 3)) := by
  have hlt : ¬ (body.length < 3) := by omega
  rw [parse_long_general, checksummed_buf_body, if_pos rfl]
  simp [pbind, tagByte, hlt]
  split <;> rfl

theorem parse_controlOk (c a ci : Nat) (u : List Nat) :
    parse_frame (0x68 :: 3 :: 3 :: 0x68 ::
        (c :: a :: ci :: calculate_checksum [c, a, ci] :: 0x16 :: u)) =
      .ok u (.control c a ci) := by
  have h := parse_longBodyOk [c, a, ci] u (by simp)
  simpa using h

theorem parse_longOk (c a ci : Nat) (d u : List Nat) (h : d ≠ []) :
    parse_frame (0x68 :: (d.length + 3) :: (d.length + 3) :: 0x68 ::
        ((c :: a :: ci :: d) ++ calculate_checksum (c :: a :: ci :: d) :: 0x16 :: u)) =
      .ok u (.long c a ci d) := by
  have hlen : (c :: a :: ci :: d).length = d.length + 3 := by simp
  have hd : d.length ≠ 0 := fun hh => h (List.length_eq_zero.mp hh)
  have hne : ¬ (d.length + 3 = 3) := by omega
  have hp := parse_longBodyOk (c :: a :: ci :: d) u (by simp)
  rw [hlen] at hp
  rw [hp, if_neg hne]
  simp [List.getD]

theorem parse_unrec (x : Nat) (t : List Nat) (h1 : x ≠ 0xE5) (h2 : x ≠ 0x10) (h3 : x ≠ 0x68) :
    parse_frame (x :: t) = .error ⟨x :: t, .Nom .Tag⟩ := by
  simp [parse_frame, singleP, short_frame, long_frame, tagByte, pbind,
    SINGLE_CHAR, SHORT_START, LONG_START, h1, h2, h3]

/-! ### Exhaustive classification of parser inputs -/

theorem exists_split :
    ∀ (n : Nat) (l : List Nat), n < l.length →
      ∃ xs y zs, l = xs ++ y :: zs ∧ xs.length = n := by
  intro n
  induction n with
  | zero =>
    intro l h
    cases l with
    | nil => simp at h
    | cons a t => exact ⟨[], a, t, rfl, rfl⟩
  | succ n ih =>
    intro l h
    cases l with
    | nil => simp at h
    | cons a t =>
      have ht : n < t.length := by simp at h; omega
      obtain ⟨xs, y, zs, rfl, hl⟩ := ih t ht
      exact ⟨a :: xs, y, zs, rfl, by simp [hl]⟩

/-- Every byte sequence matches exactly one of the shapes along which
`parse_frame` computes (see the `parse_*` equations above). -/
inductive ParseShape : List Nat → Prop where
  | nil : ParseShape []
  | singleOk (t : List Nat) : ParseShape (0xE5 :: t)
  | shortInc (t : List Nat) (h : t.length < 3) : ParseShape (0x10 :: t)
  | shortBadCs (b1 b2 b3 : Nat) (t : List Nat) (h : calculate_checksum [b1, b2] ≠ b3) :
      ParseShape (0x10 :: b1 :: b2 :: b3 :: t)
  | shortNoEnd (b1 b2 : Nat) : ParseShape [0x10, b1, b2, calculate_checksum [b1, b2]]
  | shortOk (b1 b2 : Nat) (u : List Nat) :
      ParseShape (0x10 :: b1 :: b2 :: calculate_checksum [b1, b2] :: 0x16 :: u)
  | shortBadEnd (b1 b2 y : Nat) (u : List Nat) (h : y ≠ 0x16) :
      ParseShape (0x10 :: b1 :: b2 :: calculate_checksum [b1, b2] :: y :: u)
  | longInc2 (t : List Nat) (h : t.length < 2) : ParseShape (0x68 :: t)
  | longLenMismatch (l1 l2 : Nat) (t : List Nat) (h : l1 ≠ l2) :
      ParseShape (0x68 :: l1 :: l2 :: t)
  | longIncTag (L : Nat) : ParseShape [0x68, L, L]
  | longBadTag (L z : Nat) (t3 : List Nat) (h : z ≠ 0x68) :
      ParseShape (0x68 :: L :: L :: z :: t3)
  | longIncBody (L : Nat) (t3 : List Nat) (h : t3.length < L + 1) :
      ParseShape (0x68 :: L :: L :: 0x68 :: t3)
  | longBadCs (body : List Nat) (cs : Nat) (t : List Nat)
      (h : calculate_checksum body ≠ cs) :
      ParseShape (0x68 :: body.length :: body.length :: 0x68 :: (body ++ cs :: t))
  | longNoEnd (body : List Nat) :
      ParseShape (0x68 :: body.length :: body.length :: 0x68 ::
        (body ++ [calculate_checksum body]))
  | longBadEnd (body : List Nat) (w : Nat) (u : List Nat) (h : w ≠ 0x16) :
      ParseShape (0x68 :: body.length :: body.length :: 0x68 ::
        (body ++ calculate_checksum body :: w :: u))
  | longLenLt3 (body : List Nat) (u : List Nat) (h : body.length < 3) :
      ParseShape (0x68 :: body.length :: body.length :: 0x68 ::
        (body ++ calculate_checksum body :: 0x16 :: u))
  | controlOk (c a ci : Nat) (u : List Nat) :
      ParseShape (0x68 :: 3 :: 3 :: 0x68 ::
        (c :: a :: ci :: calculate_checksum [c, a, ci] :: 0x16 :: u))
  | longOk (c a ci : Nat) (d u : List Nat) (h : d ≠ []) :
      ParseShape (0x68 :: (d.length + 3) :: (d.length + 3) :: 0x68 ::
        ((c :: a :: ci :: d) ++ calculate_checksum (c :: a :: ci :: d) :: 0x16 :: u))
  | unrec (x : Nat) (t : List Nat) (h1 : x ≠ 0xE5) (h2 : x ≠ 0x10) (h3 : x ≠ 0x68) :
      ParseShape (x :: t)

theorem parse_shape (i : List Nat) : ParseShape i := by
  rcases i with _ | ⟨x, t⟩
  · exact .nil
  by_cases hx1 : x = 0xE5
  · subst hx1; exact .singleOk t
  by_cases hx2 : x = 0x10
  · subst hx2
    rcases t with _ | ⟨b1, _ | ⟨b2, _ | ⟨b3, t'⟩⟩⟩
    · exact .shortInc [] (by simp)
    · exact .shortInc [b1] (by simp)
    · exact .shortInc [b1, b2] (by simp)
    by_cases hcs : calculate_checksum [b1, b2] = b3
    · subst hcs
      rcases t' with _ | ⟨y, u⟩
      · exact .shortNoEnd b1 b2
      by_cases hy : y = 0x16
      · subst hy; exact .shortOk b1 b2 u
      · exact .shortBadEnd b1 b2 y u hy
    · exact .shortBadCs b1 b2 b3 t' hcs
  by_cases hx3 : x = 0x68
  · subst hx3
    rcases t with _ | ⟨l1, _ | ⟨l2, t2⟩⟩
    · exact .longInc2 [] (by simp)
    · exact .longInc2 [l1] (by simp)
    by_cases hl : l1 = l2
    · subst hl
      rcases t2 with _ | ⟨z, t3⟩
      · exact .longIncTag l1
      by_cases hz : z = 0x68
      · subst hz
        by_cases hlen : t3.length < l1 + 1
        · exact .longIncBody l1 t3 hlen
        · have hsplit : l1 < t3.length := by omega
          obtain ⟨body, cs, rest, rfl, hbl⟩ := exists_split l1 t3 hsplit
          subst hbl
          by_cases hcs : calculate_checksum body = cs
          · subst hcs
            rcases rest with _ | ⟨w, u⟩
            · exact .longNoEnd body
            by_cases hw : w = 0x16
            · subst hw
              by_cases h3 : body.length < 3
              · exact .longLenLt3 body u h3
              · by_cases h4 : body.length = 3
                · obtain ⟨c, a, ci, rfl⟩ : ∃ c a ci, body = [c, a, ci] := by
                    match body, h4 with
                    | [c, a, ci], _ => exact ⟨c, a, ci, rfl⟩
                  exact .controlOk c a ci u
                · obtain ⟨c, a, ci, d, rfl⟩ : ∃ c a ci d, body = c :: a :: ci :: d := by
                    have : 3 ≤ body.length := by omega
                    match body, this with
                    | c :: a :: ci :: d, _ => exact ⟨c, a, ci, d, rfl⟩
                  have hd : d ≠ [] := by
                    intro hh
                    subst hh
                    simp at h4
                  have hlen3 : (c :: a :: ci :: d).length = d.length + 3 := by simp
                  rw [hlen3]
                  exact .longOk c a ci d u hd
            · exact .longBadEnd body w u hw
          · exact .longBadCs body cs rest hcs
      · exact .longBadTag l1 z t3 hz
    · exact .longLenMismatch l1 l2 t2 hl
  · exact .unrec x t hx1 hx2 hx3

/-! ### Consequences of the classification -/

/-- A successful parse consumes at least one byte. -/
theorem parse_ok_length (i rest : List Nat) (f : Frame)
    (h : parse_frame i = .ok rest f) : rest.length < i.length := by
  cases parse_shape i with
  | nil => rw [parse_nil] at h; exact absurd h (by simp)
  | singleOk t => rw [parse_singleOk] at h; cases h; simp
  | shortInc t ht => rw [parse_shortInc t ht] at h; exact absurd h (by simp)
  | shortBadCs b1 b2 b3 t hcs =>
    rw [parse_shortBadCs b1 b2 b3 t hcs] at h; exact absurd h (by simp)
  | shortNoEnd b1 b2 => rw [parse_shortNoEnd] at h; exact absurd h (by simp)
  | shortOk b1 b2 u => rw [parse_shortOk] at h; cases h; simp; omega
  | shortBadEnd b1 b2 y u hy =>
    rw [parse_shortBadEnd b1 b2 y u hy] at h; exact absurd h (by simp)
  | longInc2 t ht => rw [parse_longInc2 t ht] at h; exact absurd h (by simp)
  | longLenMismatch l1 l2 t hl =>
    rw [parse_longLenMismatch l1 l2 t hl] at h; exact absurd h (by simp)
  | longIncTag L => rw [parse_longIncTag] at h; exact absurd h (by simp)
  | longBadTag L z t3 hz =>
    rw [parse_longBadTag L z t3 hz] at h; exact absurd h (by simp)
  | longIncBody L t3 hlen =>
    rw [parse_longIncBody L t3 hlen] at h; exact absurd h (by simp)
  | longBadCs body cs t hcs =>
    rw [parse_longBadCs body cs t hcs] at h; exact absurd h (by simp)
  | longNoEnd body => rw [parse_longNoEnd] at h; exact absurd h (by simp)
  | longBadEnd body w u hw =>
    rw [parse_longBadEnd body w u hw] at h; exact absurd h (by simp)
  | longLenLt3 body u h3 =>
    rw [parse_longLenLt3 body u h3] at h; exact absurd h (by simp)
  | controlOk c a ci u => rw [parse_controlOk] at h; cases h; simp; omega
  | longOk c a ci d u hd =>
    rw [parse_longOk c a ci d u hd] at h; cases h
    simp [List.length_append]; omega
  | unrec x t h1 h2 h3 =>
    rw [parse_unrec x t h1 h2 h3] at h; exact absurd h (by simp)

/-- Prefix-stability: appending bytes to a successfully parsed input leaves
the parsed frame unchanged and lands the extra bytes in the remainder. -/
theorem parse_ok_ext (i rest : List Nat) (f : Frame) (ext : List Nat)
    (h : parse_frame i = .ok rest f) :
    parse_frame (i ++ ext) = .ok (rest ++ ext) f := by
  cases parse_shape i with
  | nil => rw [parse_nil] at h; exact absurd h (by simp)
  | singleOk t =>
    rw [parse_singleOk] at h; cases h
    rw [List.cons_append]; exact parse_singleOk _
  | shortInc t ht => rw [parse_shortInc t ht] at h; exact absurd h (by simp)
  | shortBadCs b1 b2 b3 t hcs =>
    rw [parse_shortBadCs b1 b2 b3 t hcs] at h; exact absurd h (by simp)
  | shortNoEnd b1 b2 => rw [parse_shortNoEnd] at h; exact absurd h (by simp)
  | shortOk b1 b2 u =>
    rw [parse_shortOk] at h; cases h
    simp only [List.cons_append]; exact parse_shortOk b1 b2 _
  | shortBadEnd b1 b2 y u hy =>
    rw [parse_shortBadEnd b1 b2 y u hy] at h; exact absurd h (by simp)
  | longInc2 t ht => rw [parse_longInc2 t ht] at h; exact absurd h (by simp)
  | longLenMismatch l1 l2 t hl =>
    rw [parse_longLenMismatch l1 l2 t hl] at h; exact absurd h (by simp)
  | longIncTag L => rw [parse_longIncTag] at h; exact absurd h (by simp)
  | longBadTag L z t3 hz =>
    rw [parse_longBadTag L z t3 hz] at h; exact absurd h (by simp)
  | longIncBody L t3 hlen =>
    rw [parse_longIncBody L t3 hlen] at h; exact absurd h (by simp)
  | longBadCs body cs t hcs =>
    rw [parse_longBadCs body cs t hcs] at h; exact absurd h (by simp)
  | longNoEnd body => rw [parse_longNoEnd] at h; exact absurd h (by simp)
  | longBadEnd body w u hw =>
    rw [parse_longBadEnd body w u hw] at h; exact absurd h (by simp)
  | longLenLt3 body u h3 =>
    rw [parse_longLenLt3 body u h3] at h; exact absurd h (by simp)
  | controlOk c a ci u =>
    rw [parse_controlOk] at h; cases h
    simp only [List.cons_append]; exact parse_controlOk c a ci _
  | longOk c a ci d u hd =>
    rw [parse_longOk c a ci d u hd] at h; cases h
    simp only [List.cons_append, List.append_assoc]
    exact parse_longOk c a ci d _ hd
  | unrec x t h1 h2 h3 =>
    rw [parse_unrec x t h1 h2 h3] at h; exact absurd h (by simp)

/-- Whether a parser outcome is a (recoverable or fatal) error. -/
def PResult.isErr {α : Type} : PResult α → Bool
  | .error _ => true
  | .failure _ => true
  | .ok _ _ => false
  | .incomplete _ => false

/-- Error-stability: appending bytes to an input on which the parser fails
leaves it failing. -/
theorem parse_err_ext (i ext : List Nat) (h : (parse_frame i).isErr = true) :
    (parse_frame (i ++ ext)).isErr = true := by
  cases parse_shape i with
  | nil => rw [parse_nil] at h; simp [PResult.isErr] at h
  | singleOk t => rw [parse_singleOk] at h; simp [PResult.isErr] at h
  | shortInc t ht => rw [parse_shortInc t ht] at h; simp [PResult.isErr] at h
  | shortBadCs b1 b2 b3 t hcs =>
    rw [List.cons_append, List.cons_append, List.cons_append, List.cons_append,
      parse_shortBadCs b1 b2 b3 (t ++ ext) hcs]
    rfl
  | shortNoEnd b1 b2 => rw [parse_shortNoEnd] at h; simp [PResult.isErr] at h
  | shortOk b1 b2 u => rw [parse_shortOk] at h; simp [PResult.isErr] at h
  | shortBadEnd b1 b2 y u hy =>
    simp only [List.cons_append]
    rw [parse_shortBadEnd b1 b2 y (u ++ ext) hy]
    rfl
  | longInc2 t ht => rw [parse_longInc2 t ht] at h; simp [PResult.isErr] at h
  | longLenMismatch l1 l2 t hl =>
    simp only [List.cons_append]
    rw [parse_longLenMismatch l1 l2 (t ++ ext) hl]
    rfl
  | longIncTag L => rw [parse_longIncTag] at h; simp [PResult.isErr] at h
  | longBadTag L z t3 hz =>
    simp only [List.cons_append]
    rw [parse_longBadTag L z (t3 ++ ext) hz]
    rfl
  | longIncBody L t3 hlen =>
    rw [parse_longIncBody L t3 hlen] at h; simp [PResult.isErr] at h
  | longBadCs body cs t hcs =>
    simp only [List.cons_append, List.append_assoc]
    rw [parse_longBadCs body cs (t ++ ext) hcs]
    rfl
  | longNoEnd body => rw [parse_longNoEnd] at h; simp [PResult.isErr] at h
  | longBadEnd body w u hw =>
    simp only [List.cons_append, List.append_assoc]
    rw [parse_longBadEnd body w (u ++ ext) hw]
    rfl
  | longLenLt3 body u h3 =>
    simp only [List.cons_append, List.append_assoc]
    rw [parse_longLenLt3 body (u ++ ext) h3]
    rfl
  | controlOk c a ci u => rw [parse_controlOk] at h; simp [PResult.isErr] at h
  | longOk c a ci d u hd =>
    rw [parse_longOk c a ci d u hd] at h; simp [PResult.isErr] at h
  | unrec x t h1 h2 h3 =>
    rw [List.cons_append, parse_unrec x (t ++ ext) h1 h2 h3]
    rfl

/-- The hint soundness property: if the parser reported that it is `m` bytes
short, then feeding it fewer than `m` additional bytes still yields
`Incomplete`. -/
theorem parse_incomplete_ext (i ext : List Nat) (m : Nat)
    (h : parse_frame i = .incomplete (.Size m)) (hlen : ext.length < m) :
    ∃ s, parse_frame (i ++ ext) = .incomplete s := by
  cases parse_shape i with
  | nil =>
    rw [parse_nil] at h
    cases h
    have hext : ext = [] := List.length_eq_zero.mp (by omega)
    subst hext
    exact ⟨_, parse_nil⟩
  | singleOk t => rw [parse_singleOk] at h; exact absurd h (by simp)
  | shortInc t ht =>
    rw [parse_shortInc t ht] at h
    cases h
    have hlt : (t ++ ext).length < 3 := by
      rw [List.length_append]; omega
    exact ⟨_, by rw [List.cons_append]; exact parse_shortInc (t ++ ext) hlt⟩
  | shortBadCs b1 b2 b3 t hcs =>
    rw [parse_shortBadCs b1 b2 b3 t hcs] at h; exact absurd h (by simp)
  | shortNoEnd b1 b2 =>
    rw [parse_shortNoEnd] at h
    cases h
    have hext : ext = [] := List.length_eq_zero.mp (by omega)
    subst hext
    exact ⟨_, by rw [List.append_nil]; exact parse_shortNoEnd b1 b2⟩
  | shortOk b1 b2 u => rw [parse_shortOk] at h; exact absurd h (by simp)
  | shortBadEnd b1 b2 y u hy =>
    rw [parse_shortBadEnd b1 b2 y u hy] at h; exact absurd h (by simp)
  | longInc2 t ht =>
    rw [parse_longInc2 t ht] at h
    cases h
    have hlt : (t ++ ext).length < 2 := by
      rw [List.length_append]; omega
    exact ⟨_, by rw [List.cons_append]; exact parse_longInc2 (t ++ ext) hlt⟩
  | longLenMismatch l1 l2 t hl =>
    rw [parse_longLenMismatch l1 l2 t hl] at h; exact absurd h (by simp)
  | longIncTag L =>
    rw [parse_longIncTag] at h
    cases h
    have hext : ext = [] := List.length_eq_zero.mp (by omega)
    subst hext
    exact ⟨_, by rw [List.append_nil]; exact parse_longIncTag L⟩
  | longBadTag L z t3 hz =>
    rw [parse_longBadTag L z t3 hz] at h; exact absurd h (by simp)
  | longIncBody L t3 hbody =>
    rw [parse_longIncBody L t3 hbody] at h
    cases h
    have hlt : (t3 ++ ext).length < L + 1 := by
      rw [List.length_append]; omega
    exact ⟨.Size (L + 1 - (t3 ++ ext).length),
      by simp only [List.cons_append]; exact parse_longIncBody L (t3 ++ ext) hlt⟩
  | longBadCs body cs t hcs =>
    rw [parse_longBadCs body cs t hcs] at h; exact absurd h (by simp)
  | longNoEnd body =>
    rw [parse_longNoEnd] at h
    cases h
    have hext : ext = [] := List.length_eq_zero.mp (by omega)
    subst hext
    exact ⟨_, by rw [List.append_nil]; exact parse_longNoEnd body⟩
  | longBadEnd body w u hw =>
    rw [parse_longBadEnd body w u hw] at h; exact absurd h (by simp)
  | longLenLt3 body u h3 =>
    rw [parse_longLenLt3 body u h3] at h; exact absurd h (by simp)
  | controlOk c a ci u => rw [parse_controlOk] at h; exact absurd h (by simp)
  | longOk c a ci d u hd =>
    rw [parse_longOk c a ci d u hd] at h; exact absurd h (by simp)
  | unrec x t h1 h2 h3 =>
    rw [parse_unrec x t h1 h2 h3] at h; exact absurd h (by simp)

/-! ### Serializer facts -/

/-- `Frame.to_bytes` agrees with the `FrameIterator` embedding `Frame.byteAt`
at every index (so collecting the iterator indeed yields `to_bytes`). -/
theorem to_bytes_get? (f : Frame) (n : Nat) : f.to_bytes.get? n = f.byteAt n := by
  cases f with
  | single => rcases n with _ | n <;> rfl
  | short c a => rcases n with _ | _ | _ | _ | _ | n <;> rfl
  | control c a ci => rcases n with _ | _ | _ | _ | _ | _ | _ | _ | _ | n <;> rfl
  | long c a ci d =>
    rcases n with _ | _ | _ | _ | _ | _ | _ | n
    · rfl
    · rfl
    · rfl
    · rfl
    · rfl
    · rfl
    · rfl
    · have hA : ([LONG_START, (d.length + 3) % 256, (d.length + 3) % 256, LONG_START,
          c, a, ci] : List Nat).length = 7 := rfl
      rw [Frame.to_bytes, List.append_assoc,
        List.get?_append_right (by rw [hA]; omega), hA]
      have h77 : n + 7 - 7 = n := by omega
      rw [h77]
      simp only [Frame.byteAt]
      by_cases h1 : n < d.length
      · rw [List.get?_append h1, if_pos (by omega)]
        have : n + 7 - 7 = n := by omega
        rw [this]
      · rw [List.get?_append_right (by omega)]
        by_cases h2 : n = d.length
        · subst h2
          rw [if_neg (by omega), if_pos (by omega)]
          simp
        · by_cases h3 : n = d.length + 1
          · subst h3
            rw [if_neg (by omega), if_neg (by omega), if_pos (by omega)]
            have : d.length + 1 - d.length = 1 := by omega
            rw [this]
            rfl
          · rw [if_neg (by omega), if_neg (by omega), if_neg (by omega)]
            refine List.get?_eq_none.mpr ?_
            simp only [List.length_cons, List.length_nil]
            omega

/-- Structural validity from the data model (§3.1 of the spec): for a Long
frame the length byte `3 + |data|` must fit 8 bits and be at least 4; other
shapes are unconstrained. -/
def Frame.validB : Frame → Bool
  | .long _ _ _ d => decide (4 ≤ 3 + d.length) && decide (3 + d.length ≤ 255)
  | _ => true

/-- C1 (confirmed): round-trip, frame to bytes to frame — for every
structurally valid `Frame` `f` (Long data length 0..=252, length byte
`3 + |data|` at least 4 for the Long shape), parsing the serialized bytes
succeeds, consumes all of them (empty remainder, i.e. `|serialize(f)|`
bytes read), and reconstructs exactly `f`. -/
theorem C1_roundtrip_serialize_parse (f : Frame) (h : f.validB = true) :
    parse_frame f.to_bytes = .ok [] f := by
  cases f with
  | single => simpa [Frame.to_bytes, SINGLE_CHAR] using parse_singleOk []
  | short c a =>
    simpa [Frame.to_bytes, SHORT_START, FRAME_END] using parse_shortOk c a []
  | control c a ci =>
    simpa [Frame.to_bytes, LONG_START, FRAME_END] using parse_controlOk c a ci []
  | long c a ci d =>
    simp only [Frame.validB, Bool.and_eq_true, decide_eq_true_eq] at h
    have hd : d ≠ [] := by
      intro hh
      subst hh
      simp at h
    have hmod : (d.length + 3) % 256 = d.length + 3 := Nat.mod_eq_of_lt (by omega)
    have hp := parse_longOk c a ci d [] hd
    rw [Frame.to_bytes, hmod]
    simpa using hp

/-- C1 witness: the roundtrip theorem applied at the repository's own Long
test vector. -/
theorem C1_witness :
    Frame.validB (.long 0x53 0xFE 0x51 [0x01, 0x7A, 0x08]) = true ∧
      parse_frame (Frame.to_bytes (.long 0x53 0xFE 0x51 [0x01, 0x7A, 0x08])) =
        .ok [] (.long 0x53 0xFE 0x51 [0x01, 0x7A, 0x08]) :=
  ⟨by decide, C1_roundtrip_serialize_parse (.long 0x53 0xFE 0x51 [0x01, 0x7A, 0x08]) (by decide)⟩

/-- C2 (confirmed): round-trip, bytes to frame to bytes — if `parse_frame`
on a byte slice `b` succeeds leaving remainder `rest` (i.e. consuming
`n = |b| - |rest|` leading bytes) and yielding frame `f`, then serializing
`f` reproduces exactly the consumed prefix: `to_bytes f ++ rest = b`,
i.e. `to_bytes f = b.take n`.  Elements of `b` are bytes (`< 256`), as in
the program where the input is an `u8` slice. -/
theorem C2_roundtrip_parse_serialize (b rest : List Nat) (f : Frame)
    (hb : ∀ x ∈ b, x < 256) (h : parse_frame b = .ok rest f) :
    f.to_bytes ++ rest = b := by
  cases parse_shape b with
  | nil => rw [parse_nil] at h; exact absurd h (by simp)
  | singleOk t =>
    rw [parse_singleOk] at h; cases h
    simp [Frame.to_bytes, SINGLE_CHAR]
  | shortInc t ht => rw [parse_shortInc t ht] at h; exact absurd h (by simp)
  | shortBadCs b1 b2 b3 t hcs =>
    rw [parse_shortBadCs b1 b2 b3 t hcs] at h; exact absurd h (by simp)
  | shortNoEnd b1 b2 => rw [parse_shortNoEnd] at h; exact absurd h (by simp)
  | shortOk b1 b2 u =>
    rw [parse_shortOk] at h; cases h
    simp [Frame.to_bytes, SHORT_START, FRAME_END]
  | shortBadEnd b1 b2 y u hy =>
    rw [parse_shortBadEnd b1 b2 y u hy] at h; exact absurd h (by simp)
  | longInc2 t ht => rw [parse_longInc2 t ht] at h; exact absurd h (by simp)
  | longLenMismatch l1 l2 t hl =>
    rw [parse_longLenMismatch l1 l2 t hl] at h; exact absurd h (by simp)
  | longIncTag L => rw [parse_longIncTag] at h; exact absurd h (by simp)
  | longBadTag L z t3 hz =>
    rw [parse_longBadTag L z t3 hz] at h; exact absurd h (by simp)
  | longIncBody L t3 hlen =>
    rw [parse_longIncBody L t3 hlen] at h; exact absurd h (by simp)
  | longBadCs body cs t hcs =>
    rw [parse_longBadCs body cs t hcs] at h; exact absurd h (by simp)
  | longNoEnd body => rw [parse_longNoEnd] at h; exact absurd h (by simp)
  | longBadEnd body w u hw =>
    rw [parse_longBadEnd body w u hw] at h; exact absurd h (by simp)
  | longLenLt3 body u h3 =>
    rw [parse_longLenLt3 body u h3] at h; exact absurd h (by simp)
  | controlOk c a ci u =>
    rw [parse_controlOk] at h; cases h
    simp [Frame.to_bytes, LONG_START, FRAME_END]
  | longOk c a ci d u hd =>
    rw [parse_longOk c a ci d u hd] at h; cases h
    have hlenbyte : d.length + 3 < 256 := hb (d.length + 3) (by simp)
    have hmod : (d.length + 3) % 256 = d.length + 3 := Nat.mod_eq_of_lt hlenbyte
    simp [Frame.to_bytes, hmod, LONG_START, FRAME_END]
  | unrec x t h1 h2 h3 =>
    rw [parse_unrec x t h1 h2 h3] at h; exact absurd h (by simp)

/-- C2 witness: the theorem applied to the repository's Short test vector. -/
theorem C2_witness :
    (∀ x ∈ ([0x10, 0x7B, 0x49, 0xC4, 0x16] : List Nat), x < 256) ∧
      parse_frame [0x10, 0x7B, 0x49, 0xC4, 0x16] = .ok [] (.short 0x7B 0x49) ∧
      Frame.to_bytes (.short 0x7B 0x49) ++ [] = [0x10, 0x7B, 0x49, 0xC4, 0x16] :=
  ⟨by decide, by decide,
    C2_roundtrip_parse_serialize [0x10, 0x7B, 0x49, 0xC4, 0x16] [] (.short 0x7B 0x49)
      (by decide) (by decide)⟩

/-- C10 (confirmed): every Long frame `parse_frame` produces has data length
between 1 and 252 inclusive — a long-start frame whose length field is `L`
is returned as `Control` exactly when `L = 3` and as `Long` (with `L - 3`
data bytes) only when `4 ≤ L ≤ 255`, so the parser never yields a `Long`
with empty data or with more than 252 data bytes.  Elements of the input
are bytes (`< 256`), as in the program where the length field is an `u8`. -/
theorem C10_long_data_bounds (b rest : List Nat) (c a ci : Nat) (d : List Nat)
    (hb : ∀ x ∈ b, x < 256) (h : parse_frame b = .ok rest (.long c a ci d)) :
    1 ≤ d.length ∧ d.length ≤ 252 := by
  cases parse_shape b with
  | nil => rw [parse_nil] at h; exact absurd h (by simp)
  | singleOk t => rw [parse_singleOk] at h; exact absurd h (by simp)
  | shortInc t ht => rw [parse_shortInc t ht] at h; exact absurd h (by simp)
  | shortBadCs b1 b2 b3 t hcs =>
    rw [parse_shortBadCs b1 b2 b3 t hcs] at h; exact absurd h (by simp)
  | shortNoEnd b1 b2 => rw [parse_shortNoEnd] at h; exact absurd h (by simp)
  | shortOk b1 b2 u => rw [parse_shortOk] at h; exact absurd h (by simp)
  | shortBadEnd b1 b2 y u hy =>
    rw [parse_shortBadEnd b1 b2 y u hy] at h; exact absurd h (by simp)
  | longInc2 t ht => rw [parse_longInc2 t ht] at h; exact absurd h (by simp)
  | longLenMismatch l1 l2 t hl =>
    rw [parse_longLenMismatch l1 l2 t hl] at h; exact absurd h (by simp)
  | longIncTag L => rw [parse_longIncTag] at h; exact absurd h (by simp)
  | longBadTag L z t3 hz =>
    rw [parse_longBadTag L z t3 hz] at h; exact absurd h (by simp)
  | longIncBody L t3 hlen =>
    rw [parse_longIncBody L t3 hlen] at h; exact absurd h (by simp)
  | longBadCs body cs t hcs =>
    rw [parse_longBadCs body cs t hcs] at h; exact absurd h (by simp)
  | longNoEnd body => rw [parse_longNoEnd] at h; exact absurd h (by simp)
  | longBadEnd body w u hw =>
    rw [parse_longBadEnd body w u hw] at h; exact absurd h (by simp)
  | longLenLt3 body u h3 =>
    rw [parse_longLenLt3 body u h3] at h; exact absurd h (by simp)
  | controlOk c' a' ci' u => rw [parse_controlOk] at h; exact absurd h (by simp)
  | longOk c' a' ci' d' u hd' =>
    rw [parse_longOk c' a' ci' d' u hd'] at h
    cases h
    have hlow : 1 ≤ d.length := List.length_pos.mpr hd'
    have hlenbyte : d.length + 3 < 256 := hb (d.length + 3) (by simp)
    exact ⟨hlow, by omega⟩
  | unrec x t h1 h2 h3 =>
    rw [parse_unrec x t h1 h2 h3] at h; exact absurd h (by simp)

/-- C10 witness: the theorem applied to the repository's Long test vector. -/
theorem C10_witness :
    (∀ x ∈ ([0x68, 0x06, 0x06, 0x68, 0x53, 0xFE, 0x51, 0x01, 0x7A, 0x08, 0x25, 0x16] :
        List Nat), x < 256) ∧
      parse_frame [0x68, 0x06, 0x06, 0x68, 0x53, 0xFE, 0x51, 0x01, 0x7A, 0x08, 0x25, 0x16] =
        .ok [] (.long 0x53 0xFE 0x51 [0x01, 0x7A, 0x08]) ∧
      (1 ≤ ([0x01, 0x7A, 0x08] : List Nat).length ∧
        ([0x01, 0x7A, 0x08] : List Nat).length ≤ 252) :=
  ⟨by decide, by decide,
    C10_long_data_bounds
      [0x68, 0x06, 0x06, 0x68, 0x53, 0xFE, 0x51, 0x01, 0x7A, 0x08, 0x25, 0x16] []
      0x53 0xFE 0x51 [0x01, 0x7A, 0x08] (by decide) (by decide)⟩

/-- The error kind of a parse outcome, when it is an error. -/
def PResult.errKind? {α : Type} : PResult α → Option FrameParseErrorKind
  | .error e => some e.kind
  | .failure e => some e.kind
  | .ok _ _ => none
  | .incomplete _ => none

/-- C5 counterexample: the claim says every input starting with `0x10` and
shorter than 5 bytes yields `Incomplete(Size(5))`; on the one-byte input
`[0x10]` the parser (nom's streaming `take`) yields `Incomplete(Size(3))`
— the *additional* bytes the blocked combinator needs, not a total. -/
theorem C5_counterexample :
    parse_frame [0x10] = .incomplete (.Size 3) ∧
      parse_frame [0x10] ≠ .incomplete (.Size 5) := by decide

/-- C5 (corrected): the `N` of `Incomplete(Size(N))` counts the additional
bytes still needed by the currently blocked sub-parser, not the total input
length.  Concretely: an input `10 ...` with `1 ≤ len < 4` yields
`Size(4 - len)` (i.e. `Size(3 - |t|)` for the bytes after the `0x10`); once
the three checksummed bytes are present and valid, `Size(1)` for the
missing end byte; a Long header `68 L L 68` followed by fewer than `L + 1`
body bytes yields `Size(L + 1 - |body so far|)`; a complete valid body
with the end byte missing yields `Size(1)`.  In each case `N` is a lower
bound on the additional bytes required to decide: feeding fewer than `N`
further bytes still yields `Incomplete`. -/
theorem C5_amended_incomplete_sizes :
    (∀ t : List Nat, t.length < 3 →
        parse_frame (0x10 :: t) = .incomplete (.Size (3 - t.length))) ∧
    (∀ b1 b2 : Nat,
        parse_frame [0x10, b1, b2, calculate_checksum [b1, b2]] =
          .incomplete (.Size 1)) ∧
    (∀ (L : Nat) (t3 : List Nat), t3.length < L + 1 →
        parse_frame (0x68 :: L :: L :: 0x68 :: t3) =
          .incomplete (.Size (L + 1 - t3.length))) ∧
    (∀ body : List Nat,
        parse_frame (0x68 :: body.length :: body.length :: 0x68 ::
          (body ++ [calculate_checksum body])) = .incomplete (.Size 1)) ∧
    (∀ (i : List Nat) (m : Nat), parse_frame i = .incomplete (.Size m) →
        ∀ ext : List Nat, ext.length < m →
          ∃ s, parse_frame (i ++ ext) = .incomplete s) :=
  ⟨parse_shortInc, parse_shortNoEnd, parse_longIncBody, parse_longNoEnd,
    fun i m h ext hl => parse_incomplete_ext i ext m h hl⟩

/-- C5 witness: the amended size formulas applied at concrete inputs. -/
theorem C5_witness :
    parse_frame [0x10, 0x7B] = .incomplete (.Size 2) ∧
      parse_frame [0x68, 0x06, 0x06, 0x68] = .incomplete (.Size 7) :=
  ⟨C5_amended_incomplete_sizes.1 [0x7B] (by decide),
    C5_amended_incomplete_sizes.2.2.1 6 [] (by decide)⟩

/-- C6 counterexample: on `10 7B 49 C4 17` — checksum byte `C4` correct,
trailing end byte `17 ≠ 16` — the parser reports a nom `Tag` error (from
the failed `tag_frame_end`, with `alt` then returning `long_frame`'s tag
error on the whole input), not `MalformedChecksum` as the claim states. -/
theorem C6_counterexample :
    calculate_checksum [0x7B, 0x49] = 0xC4 ∧
      (parse_frame [0x10, 0x7B, 0x49, 0xC4, 0x17]).errKind? = some (.Nom .Tag) ∧
      (parse_frame [0x10, 0x7B, 0x49, 0xC4, 0x17]).errKind? ≠
        some .MalformedChecksum := by decide

/-- C6 (corrected): for every 5-byte input `10 b1 b2 k e` whose checksum
byte `k` equals `checksum(b1, b2)` but whose trailing end byte `e` differs
from `0x16`, `parse_frame` fails — not with `MalformedChecksum` but with a
recoverable nom `Tag` error carrying the whole input (the error of the
`long_frame` branch, which `alt` reports last). -/
theorem C6_amended_bad_end_is_tag_error (b1 b2 e : Nat) (he : e ≠ 0x16) :
    parse_frame [0x10, b1, b2, calculate_checksum [b1, b2], e] =
      .error ⟨[0x10, b1, b2, calculate_checksum [b1, b2], e], .Nom .Tag⟩ :=
  parse_shortBadEnd b1 b2 e [] he

/-- C6 witness: the amended theorem at the counterexample input. -/
theorem C6_witness :
    (0x17 : Nat) ≠ 0x16 ∧
      parse_frame [0x10, 0x7B, 0x49, calculate_checksum [0x7B, 0x49], 0x17] =
        .error ⟨[0x10, 0x7B, 0x49, calculate_checksum [0x7B, 0x49], 0x17], .Nom .Tag⟩ :=
  ⟨by decide, C6_amended_bad_end_is_tag_error 0x7B 0x49 0x17 (by decide)⟩

/-- C7 counterexample: on the four-byte input `68 00 00 68` (a consistent
Long header with `L = 0 < 3`) the parser returns `Incomplete(Size(1))` —
it does *not* reject with `InconsistentLengthValues`, because `long_frame`
checks `length < 3` only after the whole checksummed body and the end byte
have been parsed. -/
theorem C7_counterexample :
    parse_frame [0x68, 0x00, 0x00, 0x68] = .incomplete (.Size 1) ∧
      (parse_frame [0x68, 0x00, 0x00, 0x68]).errKind? ≠
        some .InconsistentLengthValues := by decide

/-- C7 (corrected): a Long header `68 L L 68` with `L < 3` is rejected with
`InconsistentLengthValues` only once the complete candidate frame —
`L` body bytes, a valid checksum byte and the `0x16` end byte — is
present; with fewer than `L + 1` post-header bytes the parser instead
returns `Incomplete`. -/
theorem C7_amended_length_lt3 :
    (∀ (body u : List Nat), body.length < 3 →
        parse_frame (0x68 :: body.length :: body.length :: 0x68 ::
          (body ++ calculate_checksum body :: 0x16 :: u)) =
          .failure ⟨u, .InconsistentLengthValues⟩) ∧
    (∀ (L : Nat) (t3 : List Nat), t3.length < L + 1 →
        ∃ s, parse_frame (0x68 :: L :: L :: 0x68 :: t3) = .incomplete s) :=
  ⟨fun body u h => parse_longLenLt3 body u h,
    fun L t3 h => ⟨_, parse_longIncBody L t3 h⟩⟩

/-- C7 witness: the amended theorem at concrete inputs (`L = 0` complete,
and a truncated `L = 2` header). -/
theorem C7_witness :
    parse_frame [0x68, 0x00, 0x00, 0x68, 0x00, 0x16] =
        .failure ⟨[], .InconsistentLengthValues⟩ ∧
      ∃ s, parse_frame [0x68, 0x02, 0x02, 0x68, 0x01] = .incomplete s :=
  ⟨C7_amended_length_lt3.1 [] [] (by decide),
    C7_amended_length_lt3.2 2 [0x01] (by decide)⟩

/-! ## The proxy multiplexer (`mbus-proxy/src/multiplexer.rs`)

The async step `multiplex_single_op` is embedded as a pure function from
the event the biased `tokio::select!` delivered (a decoded frame on one of
the three ports, a transport read error, or cancellation) to the list of
frames written (in order, tagged with their destination port) and the
step's result (`None` = `Ok(())`, `Some e` = the `eyre` error).  The
heater's behaviour during a forward is abstracted by an oracle
`heaterReply : Option Frame` — `some r` means the heater answered `r`
within the `tokio::time::timeout` window, `none` means the timeout
elapsed. -/

inductive Port : Type where
  | externalMaster : Port
  | heater : Port
  | wmbusmeters : Port
deriving DecidableEq, Repr

/-- `SND_NKE` from `multiplexer.rs`. -/
def SND_NKE : Nat := 0x40

/-- `REQ_UD2` from `multiplexer.rs` (used only by its tests). -/
def REQ_UD2 : Nat := 0x7B

/-- The duration passed to `tokio::time::timeout` in `forward_frame`:
`Duration::from_millis(50)`. -/
def response_timeout_millis : Nat := 50

inductive MuxError : Type where
  | readError (p : Port) : MuxError
  | timeout : MuxError
  | unexpectedFrame (p : Port) (f : Frame) : MuxError
deriving DecidableEq, Repr

/-- `forward_frame` from `multiplexer.rs`: send the frame to the
destination, await the reply within `response_timeout_millis`; on a reply,
send it back to the origin; on timeout, the request has already been sent
and the function returns the timeout error. -/
def forward_frame (origin destination : Port) (frame : Frame)
    (reply : Option Frame) : List (Port × Frame) × Option MuxError :=
  match reply with
  | some resp => ([(destination, frame), (origin, resp)], none)
  | none => ([(destination, frame)], some .timeout)

/-- The control and address fields of a frame, when it has them
(the `Frame::Short {..} | Frame::Long {..} | Frame::Control {..}`
or-pattern of `multiplexer.rs`; `Single` has none). -/
def Frame.controlAddress? : Frame → Option (Nat × Nat)
  | .single => none
  | .short c a => some (c, a)
  | .control c a _ => some (c, a)
  | .long c a _ _ => some (c, a)

/-- The (textually identical) frame policy of the `external_master` and
`wmbusmeters` branches of `multiplex_single_op`: for a frame carrying an
address, if the address is `0x0` or `0x9A` then a `SND_NKE` is acknowledged
locally with `Single` and anything else is forwarded to the heater
*unchanged*; other addresses are logged and ignored; a `Single` frame makes
the branch `bail!`. -/
def handle_upstream (port : Port) (f : Frame) (heaterReply : Option Frame) :
    List (Port × Frame) × Option MuxError :=
  match f.controlAddress? with
  | some (control, address) =>
    if address = 0x0 ∨ address = 0x9A then
      if control = SND_NKE then ([(port, Frame.single)], none)
      else forward_frame port .heater f heaterReply
    else ([], none)
  | none => ([], some (.unexpectedFrame port f))

/-- The event the biased `tokio::select!` in `multiplex_single_op`
delivered. -/
inductive MuxEvent : Type where
  | fromExternalMaster (f : Frame) : MuxEvent
  | fromWmbusmeters (f : Frame) : MuxEvent
  | fromHeater (f : Frame) : MuxEvent
  | readError (p : Port) : MuxEvent
  | cancelled : MuxEvent
deriving DecidableEq, Repr

/-- `multiplex_single_op` from `multiplexer.rs`, as a function of the
selected event: frames from either master port go through the shared
policy; any frame from the heater makes the step `bail!`; a failed read
propagates as an error; cancellation returns `Ok(())`. -/
def multiplex_single_op (ev : MuxEvent) (heaterReply : Option Frame) :
    List (Port × Frame) × Option MuxError :=
  match ev with
  | .fromExternalMaster f => handle_upstream .externalMaster f heaterReply
  | .fromWmbusmeters f => handle_upstream .wmbusmeters f heaterReply
  | .fromHeater f => ([], some (.unexpectedFrame .heater f))
  | .readError p => ([], some (.readError p))
  | .cancelled => ([], none)

-- The four frame-policy unit tests of `multiplexer.rs`.
example :
    multiplex_single_op (.fromExternalMaster (.short SND_NKE 0x0)) none =
      ([(Port.externalMaster, .single)], none) := by decide
example :
    multiplex_single_op (.fromWmbusmeters (.short SND_NKE 0x0)) none =
      ([(Port.wmbusmeters, .single)], none) := by decide
example :
    multiplex_single_op (.fromExternalMaster (.short REQ_UD2 0x9A))
        (some (.long 0x00 0x9A 0x00 [0xCA, 0xFE, 0xBA, 0xBE])) =
      ([(Port.heater, .short REQ_UD2 0x9A),
        (Port.externalMaster, .long 0x00 0x9A 0x00 [0xCA, 0xFE, 0xBA, 0xBE])], none) := by
  decide
example : multiplex_single_op .cancelled none = ([], none) := by decide

/-- C3 counterexample: a Short frame from wmbusmeters with address `0xFD`
is *ignored* by the deployed multiplexer (its address test is
`address == 0x0 || address == 0x9A`): nothing is sent to the heater and no
address-rewritten copy exists, contradicting the claimed
`0xFD → HEATER_ADDR` rewrite. -/
theorem C3_counterexample :
    multiplex_single_op (.fromWmbusmeters (.short 0x7B 0xFD)) (some (.short 0x00 0x00)) =
      ([], none) := by decide

/-- C3 (corrected): the multiplexer performs no address rewriting. A Short
frame from wmbusmeters whose address is `0x0` or `0x9A` and whose control
is not `SND_NKE` is forwarded to the heater *unchanged* (same control and
address), and the heater's reply is forwarded back to wmbusmeters
unchanged; frames addressed elsewhere — `0xFD` included — are ignored. -/
theorem C3_amended_forward_unchanged (control address : Nat) (r : Frame)
    (haddr : address = 0x0 ∨ address = 0x9A) (hctl : control ≠ SND_NKE) :
    multiplex_single_op (.fromWmbusmeters (.short control address)) (some r) =
      ([(Port.heater, .short control address), (Port.wmbusmeters, r)], none) := by
  simp [multiplex_single_op, handle_upstream, Frame.controlAddress?, forward_frame,
    haddr, hctl]

/-- C3 witness: the amended theorem at the request/reply pair of the
repository's own `test_mux_two_req_ud2s`. -/
theorem C3_witness :
    ((0x9A : Nat) = 0x0 ∨ (0x9A : Nat) = 0x9A) ∧ (0x7B : Nat) ≠ SND_NKE ∧
      multiplex_single_op (.fromWmbusmeters (.short 0x7B 0x9A))
          (some (.long 0x00 0x9A 0x01 [0xCA, 0xFE, 0xBA, 0xBE])) =
        ([(Port.heater, .short 0x7B 0x9A),
          (Port.wmbusmeters, .long 0x00 0x9A 0x01 [0xCA, 0xFE, 0xBA, 0xBE])], none) :=
  ⟨Or.inr rfl, by decide,
    C3_amended_forward_unchanged 0x7B 0x9A (.long 0x00 0x9A 0x01 [0xCA, 0xFE, 0xBA, 0xBE])
      (Or.inr rfl) (by decide)⟩

/-- C4 counterexample: the deployed response timeout is
`Duration::from_millis(50)`, not 2 seconds. -/
theorem C4_counterexample :
    response_timeout_millis = 50 ∧ response_timeout_millis ≠ 2000 := by decide

/-- C4 (corrected): whenever the multiplexer forwards a request to the
heater it awaits the reply bounded by a response timeout of 50
milliseconds (not 2 seconds); if no reply arrives within the bound, the
request has been sent but the step aborts with the timeout error (which
the deployed supervisor propagates out of its loop). -/
theorem C4_amended_timeout_50ms :
    response_timeout_millis = 50 ∧
      (∀ (origin destination : Port) (f : Frame),
        forward_frame origin destination f none = ([(destination, f)], some .timeout)) ∧
      (∀ (control address : Nat), (address = 0x0 ∨ address = 0x9A) → control ≠ SND_NKE →
        multiplex_single_op (.fromWmbusmeters (.short control address)) none =
          ([(Port.heater, .short control address)], some .timeout)) := by
  refine ⟨rfl, fun origin destination f => rfl, fun control address haddr hctl => ?_⟩
  simp [multiplex_single_op, handle_upstream, Frame.controlAddress?, forward_frame,
    haddr, hctl]

/-- C4 witness: a concrete timed-out forward. -/
theorem C4_witness :
    multiplex_single_op (.fromWmbusmeters (.short 0x7B 0x9A)) none =
      ([(Port.heater, .short 0x7B 0x9A)], some .timeout) :=
  C4_amended_timeout_50ms.2.2 0x7B 0x9A (Or.inr rfl) (by decide)

/-- C8 counterexample: a frame arriving from the heater outside an
outstanding request makes the step return an *error*
(`bail!("Received unexpected frame from heater ...")`), not success. -/
theorem C8_counterexample :
    multiplex_single_op (.fromHeater .single) none =
        ([], some (.unexpectedFrame .heater .single)) ∧
      (multiplex_single_op (.fromHeater .single) none).2 ≠ none := by decide

/-- C8 (corrected): when the heater branch of the select fires, the
multiplexer sends nothing and the step returns the `bail!` error carrying
the unexpected frame — the event is fatal under the deployed supervisor
(which propagates the error out of its loop), not a logged no-op
success. -/
theorem C8_amended_heater_frame_error (f : Frame) (reply : Option Frame) :
    multiplex_single_op (.fromHeater f) reply =
      ([], some (.unexpectedFrame .heater f)) := rfl

/-! ## The two framed-stream decoders

`mbus-codec`'s `MbusCodec::decode` keeps a `needed_bytes` hint and skips
the parse attempt while the buffer is shorter than the hint;
`mbus-proxy`'s `MbusCodec::decode` is identical minus the hint.  A decode
call returns `Ok(Some(frame))` (advancing the buffer by the bytes read,
i.e. keeping the parser's remainder), `Ok(None)` on `Incomplete`, or an
`InvalidData` error wrapping the parse error. -/

inductive DecodeOut : Type where
  | frame (f : Frame) : DecodeOut
  | pending : DecodeOut
  | fail (e : FrameParseError) : DecodeOut
deriving DecidableEq, Repr

/-- `MbusCodec::decode` from `mbus-codec/src/lib.rs` (with hint): result,
new `needed_bytes`, new buffer. -/
def mbusCodecDecode (needed : Nat) (src : List Nat) : DecodeOut × Nat × List Nat :=
  if src.length < needed then (.pending, needed, src)
  else
    match parse_frame src with
    | .ok rest f => (.frame f, 0, rest)
    | .incomplete (.Size m) => (.pending, m, src)
    | .incomplete .Unknown => (.pending, needed, src)
    | .error e => (.fail e, needed, src)
    | .failure e => (.fail e, needed, src)

/-- `MbusCodec::decode` from `mbus-proxy/src/mbus_codec.rs` (no hint):
result and new buffer. -/
def proxyCodecDecode (src : List Nat) : DecodeOut × List Nat :=
  match parse_frame src with
  | .ok rest f => (.frame f, rest)
  | .incomplete _ => (.pending, src)
  | .error e => (.fail e, src)
  | .failure e => (.fail e, src)

theorem mbusCodecDecode_frame_length (needed : Nat) (buf : List Nat) (f : Frame)
    (n' : Nat) (b' : List Nat) (h : mbusCodecDecode needed buf = (.frame f, n', b')) :
    b'.length < buf.length := by
  rw [mbusCodecDecode] at h
  split at h
  · exact absurd h (by simp)
  · split at h
    next rest f' hp =>
      injection h with h1 h2
      injection h2 with h2a h2b
      exact h2b ▸ parse_ok_length buf rest f' hp
    all_goals exact absurd h (by simp)

theorem proxyCodecDecode_frame_length (buf : List Nat) (f : Frame) (b' : List Nat)
    (h : proxyCodecDecode buf = (.frame f, b')) : b'.length < buf.length := by
  rw [proxyCodecDecode] at h
  split at h
  next rest f' hp =>
    injection h with h1 h2
    exact h2 ▸ parse_ok_length buf rest f' hp
  all_goals exact absurd h (by simp)

/-- The `FramedRead` read loop of `tokio-util`, driving the hinted decoder:
repeatedly decode from the buffer, collecting frames, until the decoder
reports it needs more bytes or fails.  Returns the frames decoded (in
order), the error if one occurred, and the final `needed_bytes` and
buffer. -/
def drainHint (needed : Nat) (buf : List Nat) :
    List Frame × Option FrameParseError × Nat × List Nat :=
  match h : mbusCodecDecode needed buf with
  | (.frame f, n', b') =>
    let r := drainHint n' b'
    (f :: r.1, r.2.1, r.2.2.1, r.2.2.2)
  | (.pending, n', b') => ([], none, n', b')
  | (.fail e, n', b') => ([], some e, n', b')
termination_by buf.length
decreasing_by exact mbusCodecDecode_frame_length needed buf f n' b' h

/-- The same read loop driving the unhinted decoder. -/
def drainNoHint (buf : List Nat) : List Frame × Option FrameParseError × List Nat :=
  match h : proxyCodecDecode buf with
  | (.frame f, b') =>
    let r := drainNoHint b'
    (f :: r.1, r.2.1, r.2.2)
  | (.pending, b') => ([], none, b')
  | (.fail e, b') => ([], some e, b')
termination_by buf.length
decreasing_by exact proxyCodecDecode_frame_length buf f b' h

/-- Feeding a sequence of byte chunks to the hinted framed stream: each
chunk is appended to the buffer and the buffer drained; an error stops the
stream.  Returns the decoded frames and the error, if any. -/
def runHint (needed : Nat) (buf : List Nat) :
    List (List Nat) → List Frame × Option FrameParseError
  | [] => ([], none)
  | chunk :: rest =>
    let r := drainHint needed (buf ++ chunk)
    match r.2.1 with
    | some e => (r.1, some e)
    | none =>
      let r2 := runHint r.2.2.1 r.2.2.2 rest
      (r.1 ++ r2.1, r2.2)

/-- Feeding a sequence of byte chunks to the unhinted framed stream. -/
def runNoHint (buf : List Nat) :
    List (List Nat) → List Frame × Option FrameParseError
  | [] => ([], none)
  | chunk :: rest =>
    let r := drainNoHint (buf ++ chunk)
    match r.2.1 with
    | some e => (r.1, some e)
    | none =>
      let r2 := runNoHint r.2.2 rest
      (r.1 ++ r2.1, r2.2)

theorem drainHint_step_frame (needed : Nat) (buf : List Nat) (f : Frame) (n' : Nat)
    (b' : List Nat) (h : mbusCodecDecode needed buf = (.frame f, n', b')) :
    drainHint needed buf =
      (f :: (drainHint n' b').1, (drainHint n' b').2.1,
        (drainHint n' b').2.2.1, (drainHint n' b').2.2.2) := by
  conv_lhs => unfold drainHint
  split
  next f2 n2 b2 heq =>
    rw [h] at heq
    injection heq with heq1 heq2
    injection heq2 with heq2a heq2b
    injection heq1 with heq1a
    subst heq1a; subst heq2a; subst heq2b
    rfl
  next n2 b2 heq => rw [h] at heq; exact absurd heq (by simp)
  next e n2 b2 heq => rw [h] at heq; exact absurd heq (by simp)

theorem drainHint_step_pending (needed : Nat) (buf : List Nat) (n' : Nat)
    (b' : List Nat) (h : mbusCodecDecode needed buf = (.pending, n', b')) :
    drainHint needed buf = ([], none, n', b') := by
  conv_lhs => unfold drainHint
  split
  next f2 n2 b2 heq => rw [h] at heq; exact absurd heq (by simp)
  next n2 b2 heq =>
    rw [h] at heq
    injection heq with heq1 heq2
    injection heq2 with heq2a heq2b
    subst heq2a; subst heq2b
    rfl
  next e n2 b2 heq => rw [h] at heq; exact absurd heq (by simp)

theorem drainHint_step_fail (needed : Nat) (buf : List Nat) (e : FrameParseError)
    (n' : Nat) (b' : List Nat) (h : mbusCodecDecode needed buf = (.fail e, n', b')) :
    drainHint needed buf = ([], some e, n', b') := by
  conv_lhs => unfold drainHint
  split
  next f2 n2 b2 heq => rw [h] at heq; exact absurd heq (by simp)
  next n2 b2 heq => rw [h] at heq; exact absurd heq (by simp)
  next e2 n2 b2 heq =>
    rw [h] at heq
    injection heq with heq1 heq2
    injection heq2 with heq2a heq2b
    injection heq1 with heq1a
    subst heq1a; subst heq2a; subst heq2b
    rfl

theorem drainNoHint_step_frame (buf : List Nat) (f : Frame) (b' : List Nat)
    (h : proxyCodecDecode buf = (.frame f, b')) :
    drainNoHint buf =
      (f :: (drainNoHint b').1, (drainNoHint b').2.1, (drainNoHint b').2.2) := by
  conv_lhs => unfold drainNoHint
  split
  next f2 b2 heq =>
    rw [h] at heq
    injection heq with heq1 heq2
    injection heq1 with heq1a
    subst heq1a; subst heq2
    rfl
  next b2 heq => rw [h] at heq; exact absurd heq (by simp)
  next e b2 heq => rw [h] at heq; exact absurd heq (by simp)

theorem drainNoHint_step_pending (buf : List Nat) (b' : List Nat)
    (h : proxyCodecDecode buf = (.pending, b')) :
    drainNoHint buf = ([], none, b') := by
  conv_lhs => unfold drainNoHint
  split
  next f2 b2 heq => rw [h] at heq; exact absurd heq (by simp)
  next b2 heq =>
    rw [h] at heq
    injection heq with heq1 heq2
    subst heq2
    rfl
  next e b2 heq => rw [h] at heq; exact absurd heq (by simp)

theorem drainNoHint_step_fail (buf : List Nat) (e : FrameParseError) (b' : List Nat)
    (h : proxyCodecDecode buf = (.fail e, b')) :
    drainNoHint buf = ([], some e, b') := by
  conv_lhs => unfold drainNoHint
  split
  next f2 b2 heq => rw [h] at heq; exact absurd heq (by simp)
  next b2 heq => rw [h] at heq; exact absurd heq (by simp)
  next e2 b2 heq =>
    rw [h] at heq
    injection heq with heq1 heq2
    injection heq1 with heq1a
    subst heq1a; subst heq2
    rfl

/-- The meaning of the `needed_bytes` hint: it is `0`, or some prefix of the
buffer already made the parser report `Incomplete(Size(needed))`. -/
def HintInv (needed : Nat) (buf : List Nat) : Prop :=
  needed = 0 ∨ ∃ b0 ext, buf = b0 ++ ext ∧ parse_frame b0 = .incomplete (.Size needed)

/-- Under the hint invariant, draining with the hint yields the same
frames, the same error and the same final buffer as draining without it,
and re-establishes the invariant. -/
theorem drainHint_eq (n : Nat) :
    ∀ (buf : List Nat), buf.length ≤ n → ∀ needed, HintInv needed buf →
      (drainHint needed buf).1 = (drainNoHint buf).1 ∧
      (drainHint needed buf).2.1 = (drainNoHint buf).2.1 ∧
      (drainHint needed buf).2.2.2 = (drainNoHint buf).2.2 ∧
      HintInv (drainHint needed buf).2.2.1 (drainHint needed buf).2.2.2 := by
  induction n with
  | zero =>
    intro buf hlen needed hinv
    have hb : buf = [] := List.length_eq_zero.mp (by omega)
    subst hb
    have hd2 : proxyCodecDecode [] = (.pending, []) := by
      rw [proxyCodecDecode, parse_nil]
    rw [drainNoHint_step_pending [] [] hd2]
    by_cases h0 : (0 : Nat) < needed
    · have hd : mbusCodecDecode needed [] = (.pending, needed, []) := by
        rw [mbusCodecDecode, if_pos (by simpa using h0)]
      rw [drainHint_step_pending needed [] needed [] hd]
      exact ⟨rfl, rfl, rfl, hinv⟩
    · have hn : needed = 0 := by omega
      subst hn
      have hd : mbusCodecDecode 0 [] = (.pending, 1, []) := by
        rw [mbusCodecDecode, if_neg (by simp), parse_nil]
      rw [drainHint_step_pending 0 [] 1 [] hd]
      exact ⟨rfl, rfl, rfl, Or.inr ⟨[], [], rfl, parse_nil⟩⟩
  | succ n ih =>
    intro buf hlen needed hinv
    by_cases hskip : buf.length < needed
    · rcases hinv with h0 | ⟨b0, ext, rfl, hb0⟩
      · omega
      · have hext : ext.length < needed := by
          have := List.length_append b0 ext
          omega
        obtain ⟨s, hs⟩ := parse_incomplete_ext b0 ext needed hb0 hext
        have hd : mbusCodecDecode needed (b0 ++ ext) = (.pending, needed, b0 ++ ext) := by
          rw [mbusCodecDecode, if_pos hskip]
        rw [drainHint_step_pending _ _ _ _ hd]
        have hd2 : proxyCodecDecode (b0 ++ ext) = (.pending, b0 ++ ext) := by
          rw [proxyCodecDecode, hs]
        rw [drainNoHint_step_pending _ _ hd2]
        exact ⟨rfl, rfl, rfl, Or.inr ⟨b0, ext, rfl, hb0⟩⟩
    · cases hp : parse_frame buf with
      | ok rest f =>
        have hd : mbusCodecDecode needed buf = (.frame f, 0, rest) := by
          rw [mbusCodecDecode, if_neg hskip, hp]
        have hd2 : proxyCodecDecode buf = (.frame f, rest) := by
          rw [proxyCodecDecode, hp]
        rw [drainHint_step_frame _ _ _ _ _ hd, drainNoHint_step_frame _ _ _ hd2]
        have hrest : rest.length ≤ n := by
          have := parse_ok_length buf rest f hp
          omega
        obtain ⟨e1, e2, e3, e4⟩ := ih rest hrest 0 (Or.inl rfl)
        exact ⟨by rw [e1], by rw [e2], e3, e4⟩
      | incomplete s =>
        cases s with
        | Size m =>
          have hd : mbusCodecDecode needed buf = (.pending, m, buf) := by
            rw [mbusCodecDecode, if_neg hskip, hp]
          have hd2 : proxyCodecDecode buf = (.pending, buf) := by
            rw [proxyCodecDecode, hp]
          rw [drainHint_step_pending _ _ _ _ hd, drainNoHint_step_pending _ _ hd2]
          exact ⟨rfl, rfl, rfl, Or.inr ⟨buf, [], (List.append_nil buf).symm, hp⟩⟩
        | Unknown =>
          have hd : mbusCodecDecode needed buf = (.pending, needed, buf) := by
            rw [mbusCodecDecode, if_neg hskip, hp]
          have hd2 : proxyCodecDecode buf = (.pending, buf) := by
            rw [proxyCodecDecode, hp]
          rw [drainHint_step_pending _ _ _ _ hd, drainNoHint_step_pending _ _ hd2]
          exact ⟨rfl, rfl, rfl, hinv⟩
      | error e =>
        have hd : mbusCodecDecode needed buf = (.fail e, needed, buf) := by
          rw [mbusCodecDecode, if_neg hskip, hp]
        have hd2 : proxyCodecDecode buf = (.fail e, buf) := by
          rw [proxyCodecDecode, hp]
        rw [drainHint_step_fail _ _ _ _ _ hd, drainNoHint_step_fail _ _ _ hd2]
        exact ⟨rfl, rfl, rfl, hinv⟩
      | failure e =>
        have hd : mbusCodecDecode needed buf = (.fail e, needed, buf) := by
          rw [mbusCodecDecode, if_neg hskip, hp]
        have hd2 : proxyCodecDecode buf = (.fail e, buf) := by
          rw [proxyCodecDecode, hp]
        rw [drainHint_step_fail _ _ _ _ _ hd, drainNoHint_step_fail _ _ _ hd2]
        exact ⟨rfl, rfl, rfl, hinv⟩

/-- Under the hint invariant, the two framed streams produce identical
outputs on any chunk sequence. -/
theorem runHint_eq (chunks : List (List Nat)) :
    ∀ (needed : Nat) (buf : List Nat), HintInv needed buf →
      runHint needed buf chunks = runNoHint buf chunks := by
  induction chunks with
  | nil => intro needed buf hinv; rfl
  | cons c cs ih =>
    intro needed buf hinv
    have hinv' : HintInv needed (buf ++ c) := by
      rcases hinv with h0 | ⟨b0, ext, rfl, hb0⟩
      · exact Or.inl h0
      · exact Or.inr ⟨b0, ext ++ c, by rw [List.append_assoc], hb0⟩
    obtain ⟨e1, e2, e3, e4⟩ :=
      drainHint_eq (buf ++ c).length (buf ++ c) le_rfl needed hinv'
    simp only [runHint, runNoHint]
    rw [e1, e2, e3]
    cases hcase : (drainNoHint (buf ++ c)).2.1 with
    | some e => rfl
    | none =>
      rw [ih ((drainHint needed (buf ++ c)).2.2.1) ((drainNoHint (buf ++ c)).2.2)
        (e3 ▸ e4)]

/-- When an error-free drain stops, the parser is `Incomplete` on the
leftover buffer. -/
theorem drainNoHint_none_leftover (n : Nat) :
    ∀ buf, buf.length ≤ n → ∀ fs l, drainNoHint buf = (fs, none, l) →
      ∃ s, parse_frame l = .incomplete s := by
  induction n with
  | zero =>
    intro buf hlen fs l h
    have hb : buf = [] := List.length_eq_zero.mp (by omega)
    subst hb
    have hd2 : proxyCodecDecode [] = (.pending, []) := by
      rw [proxyCodecDecode, parse_nil]
    rw [drainNoHint_step_pending [] [] hd2] at h
    cases h
    exact ⟨_, parse_nil⟩
  | succ n ih =>
    intro buf hlen fs l h
    cases hp : parse_frame buf with
    | ok rest f =>
      have hd2 : proxyCodecDecode buf = (.frame f, rest) := by
        rw [proxyCodecDecode, hp]
      rw [drainNoHint_step_frame _ _ _ hd2] at h
      injection h with h1 h2
      injection h2 with h2a h2b
      have hrest : rest.length ≤ n := by
        have := parse_ok_length buf rest f hp
        omega
      have heq : drainNoHint rest = ((drainNoHint rest).1, none, l) := by
        rw [← h2a, ← h2b]
      exact ih rest hrest (drainNoHint rest).1 l heq
    | incomplete s =>
      have hd2 : proxyCodecDecode buf = (.pending, buf) := by
        rw [proxyCodecDecode, hp]
      rw [drainNoHint_step_pending _ _ hd2] at h
      cases h
      exact ⟨s, hp⟩
    | error e =>
      have hd2 : proxyCodecDecode buf = (.fail e, buf) := by
        rw [proxyCodecDecode, hp]
      rw [drainNoHint_step_fail _ _ _ hd2] at h
      exact absurd h (by simp)
    | failure e =>
      have hd2 : proxyCodecDecode buf = (.fail e, buf) := by
        rw [proxyCodecDecode, hp]
      rw [drainNoHint_step_fail _ _ _ hd2] at h
      exact absurd h (by simp)

/-- Draining `buf ++ ext` first yields everything an error-free drain of
`buf` yields, then continues on the leftover extended by `ext`. -/
theorem drainNoHint_append (n : Nat) :
    ∀ buf, buf.length ≤ n → ∀ ext fs l, drainNoHint buf = (fs, none, l) →
      drainNoHint (buf ++ ext) =
        (fs ++ (drainNoHint (l ++ ext)).1, (drainNoHint (l ++ ext)).2.1,
          (drainNoHint (l ++ ext)).2.2) := by
  induction n with
  | zero =>
    intro buf hlen ext fs l h
    have hb : buf = [] := List.length_eq_zero.mp (by omega)
    subst hb
    have hd2 : proxyCodecDecode [] = (.pending, []) := by
      rw [proxyCodecDecode, parse_nil]
    rw [drainNoHint_step_pending [] [] hd2] at h
    cases h
    simp
  | succ n ih =>
    intro buf hlen ext fs l h
    cases hp : parse_frame buf with
    | ok rest f =>
      have hd2 : proxyCodecDecode buf = (.frame f, rest) := by
        rw [proxyCodecDecode, hp]
      rw [drainNoHint_step_frame _ _ _ hd2] at h
      injection h with h1 h2
      injection h2 with h2a h2b
      subst h1
      have hrest : rest.length ≤ n := by
        have := parse_ok_length buf rest f hp
        omega
      have hd2' : proxyCodecDecode (buf ++ ext) = (.frame f, rest ++ ext) := by
        rw [proxyCodecDecode, parse_ok_ext buf rest f ext hp]
      rw [drainNoHint_step_frame _ _ _ hd2']
      have heq : drainNoHint rest = ((drainNoHint rest).1, none, l) := by
        rw [← h2a, ← h2b]
      have hih := ih rest hrest ext (drainNoHint rest).1 l heq
      rw [hih]
      simp
    | incomplete s =>
      have hd2 : proxyCodecDecode buf = (.pending, buf) := by
        rw [proxyCodecDecode, hp]
      rw [drainNoHint_step_pending _ _ hd2] at h
      cases h
      simp
    | error e =>
      have hd2 : proxyCodecDecode buf = (.fail e, buf) := by
        rw [proxyCodecDecode, hp]
      rw [drainNoHint_step_fail _ _ _ hd2] at h
      exact absurd h (by simp)
    | failure e =>
      have hd2 : proxyCodecDecode buf = (.fail e, buf) := by
        rw [proxyCodecDecode, hp]
      rw [drainNoHint_step_fail _ _ _ hd2] at h
      exact absurd h (by simp)

/-- Bytes appended after a drain already failed do not change the frames
produced before the failure. -/
theorem drainNoHint_err_frames (n : Nat) :
    ∀ buf, buf.length ≤ n → ∀ ext fs e l, drainNoHint buf = (fs, some e, l) →
      (drainNoHint (buf ++ ext)).1 = fs := by
  induction n with
  | zero =>
    intro buf hlen ext fs e l h
    have hb : buf = [] := List.length_eq_zero.mp (by omega)
    subst hb
    have hd2 : proxyCodecDecode [] = (.pending, []) := by
      rw [proxyCodecDecode, parse_nil]
    rw [drainNoHint_step_pending [] [] hd2] at h
    exact absurd h (by simp)
  | succ n ih =>
    intro buf hlen ext fs e l h
    cases hp : parse_frame buf with
    | ok rest f =>
      have hd2 : proxyCodecDecode buf = (.frame f, rest) := by
        rw [proxyCodecDecode, hp]
      rw [drainNoHint_step_frame _ _ _ hd2] at h
      injection h with h1 h2
      injection h2 with h2a h2b
      subst h1
      have hrest : rest.length ≤ n := by
        have := parse_ok_length buf rest f hp
        omega
      have hd2' : proxyCodecDecode (buf ++ ext) = (.frame f, rest ++ ext) := by
        rw [proxyCodecDecode, parse_ok_ext buf rest f ext hp]
      rw [drainNoHint_step_frame _ _ _ hd2']
      have heq : drainNoHint rest = ((drainNoHint rest).1, some e, l) := by
        rw [← h2a, ← h2b]
      have hih := ih rest hrest ext (drainNoHint rest).1 e l heq
      simp [hih]
    | incomplete s =>
      have hd2 : proxyCodecDecode buf = (.pending, buf) := by
        rw [proxyCodecDecode, hp]
      rw [drainNoHint_step_pending _ _ hd2] at h
      exact absurd h (by simp)
    | error e0 =>
      have hd2 : proxyCodecDecode buf = (.fail e0, buf) := by
        rw [proxyCodecDecode, hp]
      rw [drainNoHint_step_fail _ _ _ hd2] at h
      injection h with h1 h2
      subst h1
      have herr : (parse_frame (buf ++ ext)).isErr = true :=
        parse_err_ext buf ext (by rw [hp]; rfl)
      cases hp2 : parse_frame (buf ++ ext) with
      | ok rest2 f2 => rw [hp2] at herr; exact absurd herr (by simp [PResult.isErr])
      | incomplete s2 => rw [hp2] at herr; exact absurd herr (by simp [PResult.isErr])
      | error e2 =>
        have hd3 : proxyCodecDecode (buf ++ ext) = (.fail e2, buf ++ ext) := by
          rw [proxyCodecDecode, hp2]
        rw [drainNoHint_step_fail _ _ _ hd3]
      | failure e2 =>
        have hd3 : proxyCodecDecode (buf ++ ext) = (.fail e2, buf ++ ext) := by
          rw [proxyCodecDecode, hp2]
        rw [drainNoHint_step_fail _ _ _ hd3]
    | failure e0 =>
      have hd2 : proxyCodecDecode buf = (.fail e0, buf) := by
        rw [proxyCodecDecode, hp]
      rw [drainNoHint_step_fail _ _ _ hd2] at h
      injection h with h1 h2
      subst h1
      have herr : (parse_frame (buf ++ ext)).isErr = true :=
        parse_err_ext buf ext (by rw [hp]; rfl)
      cases hp2 : parse_frame (buf ++ ext) with
      | ok rest2 f2 => rw [hp2] at herr; exact absurd herr (by simp [PResult.isErr])
      | incomplete s2 => rw [hp2] at herr; exact absurd herr (by simp [PResult.isErr])
      | error e2 =>
        have hd3 : proxyCodecDecode (buf ++ ext) = (.fail e2, buf ++ ext) := by
          rw [proxyCodecDecode, hp2]
        rw [drainNoHint_step_fail _ _ _ hd3]
      | failure e2 =>
        have hd3 : proxyCodecDecode (buf ++ ext) = (.fail e2, buf ++ ext) := by
          rw [proxyCodecDecode, hp2]
        rw [drainNoHint_step_fail _ _ _ hd3]

/-- The frames a framed stream yields depend only on the total byte
sequence, not on its chunking: any chunked feed produces the same frames as
one big drain, as long as the parser is `Incomplete` on the initial
buffer. -/
theorem runNoHint_frames (chunks : List (List Nat)) :
    ∀ buf, (∃ s, parse_frame buf = .incomplete s) →
      (runNoHint buf chunks).1 = (drainNoHint (buf ++ chunks.flatten)).1 := by
  induction chunks with
  | nil =>
    intro buf hs
    obtain ⟨s, hs⟩ := hs
    have hd2 : proxyCodecDecode buf = (.pending, buf) := by
      rw [proxyCodecDecode, hs]
    rw [List.flatten_nil, List.append_nil, drainNoHint_step_pending buf buf hd2]
    rfl
  | cons c cs ih =>
    intro buf _
    simp only [runNoHint, List.flatten_cons]
    have hassoc : buf ++ (c ++ List.flatten cs) = (buf ++ c) ++ List.flatten cs :=
      (List.append_assoc buf c (List.flatten cs)).symm
    rw [hassoc]
    cases hcase : (drainNoHint (buf ++ c)).2.1 with
    | some e =>
      have hdr : drainNoHint (buf ++ c) =
          ((drainNoHint (buf ++ c)).1, some e, (drainNoHint (buf ++ c)).2.2) := by
        rw [← hcase]
      have hfr := drainNoHint_err_frames (buf ++ c).length (buf ++ c) le_rfl
        (List.flatten cs) (drainNoHint (buf ++ c)).1 e (drainNoHint (buf ++ c)).2.2 hdr
      simp only [hcase]
      rw [hfr]
    | none =>
      have hdr : drainNoHint (buf ++ c) =
          ((drainNoHint (buf ++ c)).1, none, (drainNoHint (buf ++ c)).2.2) := by
        rw [← hcase]
      have hleft := drainNoHint_none_leftover (buf ++ c).length (buf ++ c) le_rfl
        (drainNoHint (buf ++ c)).1 (drainNoHint (buf ++ c)).2.2 hdr
      have happ := drainNoHint_append (buf ++ c).length (buf ++ c) le_rfl
        (List.flatten cs) (drainNoHint (buf ++ c)).1 (drainNoHint (buf ++ c)).2.2 hdr
      simp only [hcase]
      rw [ih (drainNoHint (buf ++ c)).2.2 hleft, happ]

theorem join_singletons (bs : List Nat) : (bs.map fun b => [b]).flatten = bs := by
  induction bs with
  | nil => rfl
  | cons b bs ih => simp [ih]

/-- C9 (confirmed): the hinted framed-stream decoder (`mbus-codec`'s
`MbusCodec` with `needed_bytes`) and the unhinted one (`mbus-proxy`'s
`MbusCodec`) are observationally equivalent — fed the same sequence of
byte chunks from their initial states they produce the same sequence of
decoded frames and the same error; and for either decoder, feeding a byte
sequence one byte at a time yields the same frames as feeding it all at
once. -/
theorem C9_codec_equivalence :
    (∀ chunks : List (List Nat), runHint 0 [] chunks = runNoHint [] chunks) ∧
      (∀ bs : List Nat,
        (runNoHint [] (bs.map fun b => [b])).1 = (runNoHint [] [bs]).1) ∧
      (∀ bs : List Nat,
        (runHint 0 [] (bs.map fun b => [b])).1 = (runHint 0 [] [bs]).1) := by
  have h1 : ∀ chunks : List (List Nat), runHint 0 [] chunks = runNoHint [] chunks :=
    fun chunks => runHint_eq chunks 0 [] (Or.inl rfl)
  have hnil : ∃ s, parse_frame ([] : List Nat) = .incomplete s := ⟨_, parse_nil⟩
  have h2 : ∀ bs : List Nat,
      (runNoHint [] (bs.map fun b => [b])).1 = (runNoHint [] [bs]).1 := by
    intro bs
    have ha := runNoHint_frames (bs.map fun b => [b]) [] hnil
    have hb := runNoHint_frames [bs] [] hnil
    rw [join_singletons] at ha
    have hjoin : List.flatten [bs] = bs := by simp
    rw [hjoin] at hb
    rw [ha, hb]
  exact ⟨h1, h2, fun bs => by rw [h1, h1]; exact h2 bs⟩

end Mbus
